import Mathlib

/-!
Verification development for the Stock Analysis Dashboard repository.

The definitions below are a shallow embedding of the Python source:

* `components/data_processor.py` — `DataProcessor._final_data_cleaning` and
  `DataProcessor.process_uploaded_data` (cleaning pipeline), and
  `DataProcessor._process_indian_format` (Indian-format normalizer);
* `components/comprehensive_technical_analysis.py` — indicator column
  assignments, the inline stochastic-%K computation, Golden/Death-Cross
  detection, and the signal accumulator with its composite recommendation;
* `components/technical_analysis.py` — `TechnicalAnalysis.calculate_indicators`.

Numeric dataframe cells are modelled over `ℚ`; a pandas `NaN` (missing value)
is modelled by `Option.none` for raw input rows and by `PFloat.nan` for
computed indicator columns (`PFloat` also carries the two IEEE infinities so
that division by zero is modelled faithfully).  Dates are modelled as
integers ordered like calendar dates.  `pandas.DataFrame.sort_values` is
modelled as a stable sort (`List.insertionSort`); the real default sort is
unstable, so theorems sensitive to the order of equal-date rows hypothesise
the dates pairwise distinct.
-/

namespace StockDash

/-- A candidate price row produced by the format normalizer, before the final
cleaning: every field may be missing (`none` models a pandas `NaN`, which is
also what an infinite value becomes after the `replace([inf, -inf], nan)`
step of `_final_data_cleaning`). -/
structure RawBar where
  Date : Option ℤ
  Open : Option ℚ
  High : Option ℚ
  Low : Option ℚ
  Close : Option ℚ
  Volume : Option ℚ
deriving DecidableEq, Repr

/-- A fully-present price row, as obtained after the
`dropna(subset=[Date, Open, High, Low, Close, Volume])` step. -/
structure Bar where
  Date : ℤ
  Open : ℚ
  High : ℚ
  Low : ℚ
  Close : ℚ
  Volume : ℚ
deriving DecidableEq, Repr

/-- `df.dropna(subset=['Date','Open','High','Low','Close','Volume'])`:
keep exactly the rows in which all six required fields are present. -/
def dropMissing (l : List RawBar) : List Bar :=
  l.filterMap fun r =>
    match r.Date, r.Open, r.High, r.Low, r.Close, r.Volume with
    | some d, some o, some h, some lo, some c, some v =>
        some { Date := d, Open := o, High := h, Low := lo, Close := c, Volume := v }
    | _, _, _, _, _, _ => none

/-- The `invalid_mask` of `_final_data_cleaning` (data_processor.py lines
216–227): a row is invalid when any OHLC ordering constraint is violated, a
price is non-positive, or the volume is negative. -/
def invalidBar (b : Bar) : Bool :=
  (b.High < b.Low) || (b.High < b.Open) || (b.High < b.Close) ||
  (b.Low > b.Open) || (b.Low > b.Close) ||
  (b.Open ≤ 0) || (b.High ≤ 0) || (b.Low ≤ 0) || (b.Close ≤ 0) ||
  (b.Volume < 0)

/-- `df = df[~invalid_mask]`. -/
def filterValid (l : List Bar) : List Bar :=
  l.filter fun b => !invalidBar b

/-- Order on rows used by `df.sort_values('Date')`. -/
def dateLE (a b : Bar) : Prop := a.Date ≤ b.Date

instance : DecidableRel dateLE := fun a b => inferInstanceAs (Decidable (a.Date ≤ b.Date))

instance : IsTotal Bar dateLE := ⟨fun a b => le_total a.Date b.Date⟩

instance : IsTrans Bar dateLE := ⟨fun _ _ _ hab hbc => le_trans hab hbc⟩

instance : IsRefl Bar dateLE := ⟨fun a => le_refl a.Date⟩

/-- `df.sort_values('Date').reset_index(drop=True)`, modelled as a stable
sort on the date column.  pandas uses numpy quicksort here, which is NOT
stable: rows sharing a date may come back in a different (deterministic)
order.  The model therefore only stands in for the source when the
conclusion does not depend on the relative order of equal-date rows, or
when the dates are pairwise distinct (then every correct sort agrees). -/
def sortByDate (l : List Bar) : List Bar :=
  l.insertionSort dateLE

/-- Linear interpolation step of `pandas.Series.quantile`: for a sorted list
`s` of length `n` and a fractional position `h ∈ [0, n-1]`, the result is
`s[⌊h⌋] + (h - ⌊h⌋) * (s[⌊h⌋+1] - s[⌊h⌋])`. -/
def qinterp (s : List ℚ) (h : ℚ) : ℚ :=
  let i : ℕ := (Int.floor h).toNat
  let g : ℚ := h - (i : ℚ)
  let vi := s.getD i 0
  let vj := s.getD (min (i + 1) (s.length - 1)) 0
  vi + g * (vj - vi)

/-- `pandas.Series.quantile(q)` with the default linear interpolation.  The
value `0` returned for an empty column is junk (pandas returns `NaN` there);
the cleaning code never caps anything in that case because every comparison
against `NaN` is false, and likewise no comparison against the junk value is
ever performed on an element of an empty column. -/
def quantile (q : ℚ) (l : List ℚ) : ℚ :=
  if l = [] then 0
  else qinterp (l.insertionSort (· ≤ ·)) (q * ((l.length : ℚ) - 1))

/-- One element of the per-column outlier-capping step (data_processor.py
lines 247–248): `df.loc[df[col] < q1 * 0.01, col] = q1` followed by
`df.loc[df[col] > q99 * 100, col] = q99`, the second comparison being made
on the already low-capped column.  (The enclosing `if extreme_count > 0`
guard in the source only skips the two assignments when neither condition
holds for any element, in which case both maps are the identity anyway.) -/
def capValue (q1 q99 : ℚ) (v : ℚ) : ℚ :=
  let v1 := if v < q1 * (1 / 100) then q1 else v
  if v1 > q99 * 100 then q99 else v1

/-- Per-column capping of a whole column. -/
def capColumn (col : List ℚ) : List ℚ :=
  let q1 := quantile (1 / 100) col
  let q99 := quantile (99 / 100) col
  col.map (capValue q1 q99)

/-- The final loop of `_final_data_cleaning` (lines 238–248): each of the
five numeric columns is capped against its own 1st/99th percentiles.  The
Python loop handles the columns sequentially, but since each column's
quantiles depend only on that column and capping one column does not change
any other, the sequential loop equals this per-row map. -/
def capAll (l : List Bar) : List Bar :=
  let o1 := quantile (1 / 100) (l.map (·.Open))
  let o99 := quantile (99 / 100) (l.map (·.Open))
  let h1 := quantile (1 / 100) (l.map (·.High))
  let h99 := quantile (99 / 100) (l.map (·.High))
  let l1 := quantile (1 / 100) (l.map (·.Low))
  let l99 := quantile (99 / 100) (l.map (·.Low))
  let c1 := quantile (1 / 100) (l.map (·.Close))
  let c99 := quantile (99 / 100) (l.map (·.Close))
  let v1 := quantile (1 / 100) (l.map (·.Volume))
  let v99 := quantile (99 / 100) (l.map (·.Volume))
  l.map fun b =>
    { b with
      Open := capValue o1 o99 b.Open
      High := capValue h1 h99 b.High
      Low := capValue l1 l99 b.Low
      Close := capValue c1 c99 b.Close
      Volume := capValue v1 v99 b.Volume }

/-- `DataProcessor._final_data_cleaning` (data_processor.py lines 183–250),
starting after the column-selection / type-coercion steps which the `RawBar`
representation already accounts for: drop rows with missing fields, drop
rows failing the validity mask, sort ascending by date, then cap outliers
per numeric column. -/
def finalDataCleaning (l : List RawBar) : List Bar :=
  capAll (sortByDate (filterValid (dropMissing l)))

/-- The tail of `DataProcessor.process_uploaded_data` (lines 56–59): run the
final cleaning, and raise `ValueError("No valid data remaining after
processing")` when the cleaned frame is empty. -/
def processUploadedData (l : List RawBar) : Except String (List Bar) :=
  let df := finalDataCleaning l
  if df.isEmpty then Except.error "No valid data remaining after processing"
  else Except.ok df

/-- Re-inject a cleaned row as a candidate row (used to state idempotence of
the cleaner: its output is fed back as its input). -/
def barToRaw (b : Bar) : RawBar :=
  { Date := some b.Date, Open := some b.Open, High := some b.High,
    Low := some b.Low, Close := some b.Close, Volume := some b.Volume }

/-! ### Signal engine (comprehensive_technical_analysis.py)

Signals are accumulated by the Python code as plain strings pushed into
`self.signals`; the composite recommendation filters them by the prefixes
`"BUY"` / `"SELL"`.  We model them as the same strings. -/

/-- A pandas comparison `a > b` between two scalar series values, where
either side may be `NaN`: any comparison involving `NaN` is `False`. -/
def optGt (a b : Option ℚ) : Bool :=
  match a, b with
  | some x, some y => decide (y < x)
  | _, _ => false

/-- Golden/Death-cross detection of `_cross_analysis` (lines 283–294),
applied to the SMA_50 and SMA_200 values at the last two rows (the code
reaches this block whenever the frame has at least two rows; the
`tail(10)` restriction does not change the last two rows).  The function
returns the signals appended to `self.signals` by this block. -/
def crossSignals (prev50 prev200 cur50 cur200 : Option ℚ) : List String :=
  let prevAbove := optGt prev50 prev200
  let currAbove := optGt cur50 cur200
  if !prevAbove && currAbove then ["BUY - Golden Cross detected"]
  else if prevAbove && !currAbove then ["SELL - Death Cross detected"]
  else []

/-- `[s for s in self.signals if s.startswith("BUY")]` (line 888);
`startswith` is modelled as prefix-of on the character lists. -/
def buySignals (sigs : List String) : List String :=
  sigs.filter fun s => "BUY".data.isPrefixOf s.data

/-- `[s for s in self.signals if s.startswith("SELL")]` (line 889). -/
def sellSignals (sigs : List String) : List String :=
  sigs.filter fun s => "SELL".data.isPrefixOf s.data

/-- The composite recommendation of `_signals_and_summary` (lines 906–914). -/
def overallSignal (sigs : List String) : String :=
  if (buySignals sigs).length > (sellSignals sigs).length then "BUY"
  else if (sellSignals sigs).length > (buySignals sigs).length then "SELL"
  else "NEUTRAL"

/-- One `analyze_stock` run, seen from the signal accumulator: the rule
checks append their emitted signals to the instance-level `self.signals`
list, which is initialised once in `__init__` and never reset.  `emitted`
is the list of signals the rule checks produce for the given frame; it is
a function of the frame only, hence identical for two runs on the same
frame. -/
def signalsAfterRun (state emitted : List String) : List String :=
  state ++ emitted

/-! ### Floating-point model and indicator columns

Indicator columns contain IEEE-754-style values: a rational, one of the two
infinities, or `NaN`.  Cleaned base columns only contain rationals, but the
inline stochastic computation divides and so can produce the other values. -/

/-- A pandas float cell. -/
inductive PFloat where
  | nan : PFloat
  | posInf : PFloat
  | negInf : PFloat
  | val : ℚ → PFloat
deriving DecidableEq, Repr

namespace PFloat

/-- IEEE subtraction. -/
def sub : PFloat → PFloat → PFloat
  | nan, _ => nan
  | _, nan => nan
  | posInf, posInf => nan
  | posInf, _ => posInf
  | negInf, negInf => nan
  | negInf, _ => negInf
  | val _, posInf => negInf
  | val _, negInf => posInf
  | val a, val b => val (a - b)

/-- IEEE addition. -/
def add : PFloat → PFloat → PFloat
  | nan, _ => nan
  | _, nan => nan
  | posInf, negInf => nan
  | negInf, posInf => nan
  | posInf, _ => posInf
  | _, posInf => posInf
  | negInf, _ => negInf
  | _, negInf => negInf
  | val a, val b => val (a + b)

/-- IEEE multiplication. -/
def mul : PFloat → PFloat → PFloat
  | nan, _ => nan
  | _, nan => nan
  | posInf, posInf => posInf
  | posInf, negInf => negInf
  | negInf, posInf => negInf
  | negInf, negInf => posInf
  | posInf, val b => if b = 0 then nan else if 0 < b then posInf else negInf
  | val a, posInf => if a = 0 then nan else if 0 < a then posInf else negInf
  | negInf, val b => if b = 0 then nan else if 0 < b then negInf else posInf
  | val a, negInf => if a = 0 then nan else if 0 < a then negInf else posInf
  | val a, val b => val (a * b)

/-- IEEE division, with numpy behaviour on a zero divisor:
`0/0 = NaN`, `x/0 = ±∞` for `x ≠ 0`. -/
def div : PFloat → PFloat → PFloat
  | nan, _ => nan
  | _, nan => nan
  | posInf, posInf => nan
  | posInf, negInf => nan
  | negInf, posInf => nan
  | negInf, negInf => nan
  | posInf, val b => if 0 ≤ b then posInf else negInf
  | negInf, val b => if 0 ≤ b then negInf else posInf
  | val _, posInf => val 0
  | val _, negInf => val 0
  | val a, val b =>
      if b = 0 then (if a = 0 then nan else if 0 < a then posInf else negInf)
      else val (a / b)

end PFloat

/-- Minimum of two float cells (`NaN` absorbs, matching a rolling window
that contains a missing value and therefore yields a missing result). -/
def pfMin (a b : PFloat) : PFloat :=
  match a, b with
  | PFloat.nan, _ => PFloat.nan
  | _, PFloat.nan => PFloat.nan
  | PFloat.negInf, _ => PFloat.negInf
  | _, PFloat.negInf => PFloat.negInf
  | PFloat.posInf, x => x
  | x, PFloat.posInf => x
  | PFloat.val a, PFloat.val b => PFloat.val (min a b)

/-- Maximum of two float cells. -/
def pfMax (a b : PFloat) : PFloat :=
  match a, b with
  | PFloat.nan, _ => PFloat.nan
  | _, PFloat.nan => PFloat.nan
  | PFloat.posInf, _ => PFloat.posInf
  | _, PFloat.posInf => PFloat.posInf
  | PFloat.negInf, x => x
  | x, PFloat.negInf => x
  | PFloat.val a, PFloat.val b => PFloat.val (max a b)

/-- An indicator column. -/
abbrev Col := List PFloat

/-- Embed a fully-numeric (cleaned) column. -/
def colOfQ (l : List ℚ) : Col := l.map PFloat.val

/-- `series.rolling(window=w).min()`: missing until the window is full
(pandas default `min_periods = window`), then the window minimum; a missing
value inside the window makes the result missing. -/
def rollingMin (w : ℕ) (l : Col) : Col :=
  (List.range l.length).map fun i =>
    if i + 1 < w then PFloat.nan
    else ((l.take (i + 1)).drop (i + 1 - w)).foldr pfMin PFloat.posInf

/-- `series.rolling(window=w).max()`. -/
def rollingMax (w : ℕ) (l : Col) : Col :=
  (List.range l.length).map fun i =>
    if i + 1 < w then PFloat.nan
    else ((l.take (i + 1)).drop (i + 1 - w)).foldr pfMax PFloat.negInf

/-- `series.rolling(window=w).mean()`. -/
def rollingMean (w : ℕ) (l : Col) : Col :=
  (List.range l.length).map fun i =>
    if i + 1 < w then PFloat.nan
    else PFloat.div (((l.take (i + 1)).drop (i + 1 - w)).foldr PFloat.add (PFloat.val 0))
      (PFloat.val (w : ℚ))

/-- The inline stochastic-%K computation of `_calculate_all_indicators`
(lines 91–93):
`((Close - Low.rolling(14).min()) / (High.rolling(14).max() - Low.rolling(14).min())) * 100`. -/
def stochKCol (high low close : Col) : Col :=
  List.zipWith (fun num den => PFloat.mul (PFloat.div num den) (PFloat.val 100))
    (List.zipWith PFloat.sub close (rollingMin 14 low))
    (List.zipWith PFloat.sub (rollingMax 14 high) (rollingMin 14 low))

/-- `series.cumsum()` on a column without missing values (the only way it
is used here: the cleaned base columns are fully numeric). -/
def cumsum (l : Col) : Col :=
  (l.scanl PFloat.add (PFloat.val 0)).tail

/-- The VWAP fallback computation of `_calculate_all_indicators` (line 116):
`(Volume * (High + Low + Close) / 3).cumsum() / Volume.cumsum()`. -/
def vwapCol (volume high low close : Col) : Col :=
  List.zipWith PFloat.div
    (cumsum (List.zipWith
      (fun v s => PFloat.div (PFloat.mul v s) (PFloat.val 3))
      volume
      (List.zipWith PFloat.add (List.zipWith PFloat.add high low) close)))
    (cumsum volume)

/-! ### Dataframe model for the indicator engines -/

/-- A dataframe: named columns in insertion order. -/
abbrev Df := List (String × Col)

/-- Column lookup (column names are unique in every frame built here). -/
def getCol : Df → String → Option Col
  | [], _ => none
  | p :: t, name => if p.1 = name then some p.2 else getCol t name

/-- Column lookup with the empty column as default (only used for columns
whose presence `analyze_stock` has already checked). -/
def getColD (df : Df) (name : String) : Col :=
  (getCol df name).getD []

/-- `df[name] = col`: replace the column when the name exists, else append
it as the last column. -/
def setCol : Df → String → Col → Df
  | [], name, c => [(name, c)]
  | p :: t, name, c => if p.1 = name then (name, c) :: t else p :: setCol t name c

/-- The functions imported from the external `ta` library.  Their numeric
content is irrelevant to the frame-effect claims, so the embedding is
parametric in them; the inline computations of the repository itself
(stochastic %K, rolling means, VWAP) are implemented concretely. -/
structure IndicatorLib where
  sma : ℕ → Col → Col
  ema : ℕ → Col → Col
  rsi : ℕ → Col → Col
  macd : Col → Col
  macdSignal : Col → Col
  macdDiff : Col → Col
  bbHband : Col → Col
  bbMavg : Col → Col
  bbLband : Col → Col
  atr : Col → Col → Col → Col
  obv : Col → Col → Col
  stoch : Col → Col → Col → Col
  stochSignal : Col → Col → Col → Col

/-- The column assignments performed by
`ComprehensiveTechnicalAnalysis._calculate_all_indicators` on `df_calc`
(lines 71–116), in source order: assigned name paired with a reader that
computes the new column from the frame at that point.  `df0` is the
original argument frame, consulted by the VWAP branch
(`if 'vwap' in df.columns`). -/
def comprehensiveAssignments (lib : IndicatorLib) (df0 : Df) :
    List (String × (Df → Col)) :=
  [ ("SMA_20", fun d => lib.sma 20 (getColD d "Close")),
    ("SMA_50", fun d => lib.sma 50 (getColD d "Close")),
    ("SMA_200", fun d => lib.sma 200 (getColD d "Close")),
    ("EMA_20", fun d => lib.ema 20 (getColD d "Close")),
    ("RSI", fun d => lib.rsi 14 (getColD d "Close")),
    ("MACD", fun d => lib.macd (getColD d "Close")),
    ("MACD_Signal", fun d => lib.macdSignal (getColD d "Close")),
    ("MACD_Histogram", fun d => lib.macdDiff (getColD d "Close")),
    ("Stoch_K", fun d => stochKCol (getColD d "High") (getColD d "Low") (getColD d "Close")),
    ("Stoch_D", fun d => rollingMean 3 (getColD d "Stoch_K")),
    ("BB_Upper", fun d => lib.bbHband (getColD d "Close")),
    ("BB_Middle", fun d => lib.bbMavg (getColD d "Close")),
    ("BB_Lower", fun d => lib.bbLband (getColD d "Close")),
    ("ATR", fun d => lib.atr (getColD d "High") (getColD d "Low") (getColD d "Close")),
    ("OBV", fun d => lib.obv (getColD d "Close") (getColD d "Volume")),
    ("VWAP", fun d =>
      if (getCol df0 "vwap").isSome then getColD df0 "vwap"
      else vwapCol (getColD d "Volume") (getColD d "High") (getColD d "Low")
        (getColD d "Close")) ]

/-- Run a sequence of column assignments left to right on a frame. -/
def applyAssignments (df : Df) (assigns : List (String × (Df → Col))) : Df :=
  assigns.foldl (fun d p => setCol d p.1 (p.2 d)) df

/-- `_calculate_all_indicators` as a call: the pair is (value of the
argument frame after the call, returned frame).  The body starts with
`df_calc = df.copy()` and every assignment targets `df_calc`, so the
argument comes back unchanged. -/
def calculateAllIndicators (lib : IndicatorLib) (df : Df) : Df × Df :=
  (df, applyAssignments df (comprehensiveAssignments lib df))

/-- The column assignments of `TechnicalAnalysis.calculate_indicators`
(technical_analysis.py lines 44–67), in source order. -/
def taAssignments (lib : IndicatorLib) : List (String × (Df → Col)) :=
  [ ("SMA_20", fun d => lib.sma 20 (getColD d "Close")),
    ("SMA_50", fun d => lib.sma 50 (getColD d "Close")),
    ("EMA_12", fun d => lib.ema 12 (getColD d "Close")),
    ("EMA_26", fun d => lib.ema 26 (getColD d "Close")),
    ("RSI", fun d => lib.rsi 14 (getColD d "Close")),
    ("MACD", fun d => lib.macd (getColD d "Close")),
    ("MACD_signal", fun d => lib.macdSignal (getColD d "Close")),
    ("MACD_histogram", fun d => lib.macdDiff (getColD d "Close")),
    ("BB_upper", fun d => lib.bbHband (getColD d "Close")),
    ("BB_middle", fun d => lib.bbMavg (getColD d "Close")),
    ("BB_lower", fun d => lib.bbLband (getColD d "Close")),
    ("Volume_SMA", fun d => rollingMean 20 (getColD d "Volume")),
    ("Stoch_K", fun d => lib.stoch (getColD d "High") (getColD d "Low") (getColD d "Close")),
    ("Stoch_D", fun d => lib.stochSignal (getColD d "High") (getColD d "Low") (getColD d "Close")) ]

/-- `TechnicalAnalysis.calculate_indicators` as a call: every assignment
targets the parameter frame itself (`df[...] = ...`) and the same frame is
returned, so the argument after the call equals the returned frame. -/
def taCalculateIndicators (lib : IndicatorLib) (df : Df) : Df × Df :=
  let d := applyAssignments df (taAssignments lib)
  (d, d)

/-- The canonical base columns of a cleaned frame. -/
def baseColNames : List String :=
  ["Date", "Open", "High", "Low", "Close", "Volume"]

/-! ### Indian-format normalizer (data_processor.py `_process_indian_format`) -/

/-- `str.replace(c, '')` for a single character. -/
def removeChar (c : Char) (s : String) : String :=
  ⟨s.data.filter (· ≠ c)⟩

/-- Python `str.strip()`: drop leading and trailing whitespace. -/
def pyStrip (s : String) : String :=
  ⟨((s.data.dropWhile Char.isWhitespace).reverse.dropWhile Char.isWhitespace).reverse⟩

/-- The per-cell cleaning of the numeric columns (line 133):
`.str.replace('"', '').str.replace(',', '').str.strip()`. -/
def cleanNumericCell (s : String) : String :=
  pyStrip (removeChar ',' (removeChar '"' s))

/-- Parse a non-empty all-digit character list as a natural number. -/
def parseDigits (cs : List Char) : Option ℕ :=
  if cs = [] then none
  else if cs.all (·.isDigit) then
    some (cs.foldl (fun n c => 10 * n + (c.toNat - 48)) 0)
  else none

/-- `pandas.to_numeric(..., errors='coerce')` on the plain decimal literals
produced by the Indian cleaning step (optional sign, integer part, optional
fractional part); anything else coerces to missing. -/
def parseDecimal (s : String) : Option ℚ :=
  let signAndDigits : Bool × List Char :=
    match s.data with
    | '-' :: t => (true, t)
    | '+' :: t => (false, t)
    | t => (false, t)
  let neg := signAndDigits.1
  let cs := signAndDigits.2
  match cs.splitOn '.' with
  | [ip] =>
      (parseDigits ip).map fun n => (if neg then -1 else 1) * (n : ℚ)
  | [ip, fp] =>
      if ip = [] ∧ fp = [] then none
      else
        match (if ip = [] then some 0 else parseDigits ip),
            (if fp = [] then some 0 else parseDigits fp) with
        | some a, some b =>
            some ((if neg then -1 else 1) *
              ((a : ℚ) + (b : ℚ) / ((10 ^ fp.length : ℕ) : ℚ)))
        | _, _ => none
  | _ => none

/-- The English month abbreviations matched by `strptime` directive `%b`
(matched case-insensitively). -/
def monthAbbrevs : List (String × ℕ) :=
  [("jan", 1), ("feb", 2), ("mar", 3), ("apr", 4), ("may", 5), ("jun", 6),
   ("jul", 7), ("aug", 8), ("sep", 9), ("oct", 10), ("nov", 11), ("dec", 12)]

/-- ASCII lower-casing of one character (what `%b` month matching needs). -/
def lowerChar (c : Char) : Char :=
  if 'A' ≤ c ∧ c ≤ 'Z' then Char.ofNat (c.toNat + 32) else c

/-- ASCII lower-casing of a string. -/
def lowerString (s : String) : String := ⟨s.data.map lowerChar⟩

/-- Month-abbreviation lookup for `%b` (case-insensitive). -/
def parseMonthAbbrev (s : String) : Option ℕ :=
  (monthAbbrevs.find? fun p => p.1 == lowerString s).map (·.2)

/-- `pd.to_datetime(s, format='%d-%b-%Y')` on one cell, producing
(year, month, day); the day-of-month bound check stands in for strptime's
calendar validation. -/
def parseDateDMY (s : String) : Option (ℕ × ℕ × ℕ) :=
  match s.data.splitOn '-' with
  | [d, m, y] =>
      match parseDigits d, parseMonthAbbrev ⟨m⟩, parseDigits y with
      | some dd, some mm, some yy =>
          if 1 ≤ dd ∧ dd ≤ 31 then some (yy, mm, dd) else none
      | _, _, _ => none
  | _ => none

/-- One row after `_process_indian_format`: the date as (year, month, day)
and the numeric fields, each possibly missing when coercion failed. -/
structure NormalizedRow where
  Date : Option (ℕ × ℕ × ℕ)
  Open : Option ℚ
  High : Option ℚ
  Low : Option ℚ
  Close : Option ℚ
  Volume : Option ℚ
deriving DecidableEq, Repr

/-- `_process_indian_format` (lines 129–146) applied to one row's cells:
quote/comma stripping plus numeric coercion for the five numeric columns,
quote stripping plus `%d-%b-%Y` parsing for the date. -/
def processIndianRow (date o h lo c v : String) : NormalizedRow :=
  { Date := parseDateDMY (pyStrip (removeChar '"' date))
  , Open := parseDecimal (cleanNumericCell o)
  , High := parseDecimal (cleanNumericCell h)
  , Low := parseDecimal (cleanNumericCell lo)
  , Close := parseDecimal (cleanNumericCell c)
  , Volume := parseDecimal (cleanNumericCell v) }

/-! ### Concrete inputs used by counterexamples and witnesses -/

/-- Build a fully-present candidate row. -/
def mkRaw (d : ℤ) (o h lo c v : ℚ) : RawBar :=
  { Date := some d, Open := some o, High := some h, Low := some lo,
    Close := some c, Volume := some v }

/-- Five valid rows, two of them sharing a date; the third row's tiny `Low`
drags the 1st percentile of the `Low` column far above the row's `High`,
so the capping step raises `Low` past `High`. -/
def ex1 : List RawBar :=
  [mkRaw 0 1 1 (1 / 1000) 1 100,
   mkRaw 1 1000 1000 1000 1000 100,
   mkRaw 1 1000 1000 1000 1000 100,
   mkRaw 2 1000 1000 1000 1000 100,
   mkRaw 3 1000 1000 1000 1000 100]

/-- Like `ex1` but with distinct dates: after one cleaning pass the first
row violates `Low ≤ High`, so a second pass drops it. -/
def ex5 : List RawBar :=
  [mkRaw 0 1 1 (1 / 1000) 1 100,
   mkRaw 1 1000 1000 1000 1000 100,
   mkRaw 2 1000 1000 1000 1000 100,
   mkRaw 3 1000 1000 1000 1000 100,
   mkRaw 4 1000 1000 1000 1000 100]

/-- Two uniform valid rows; the cleaner is the identity on them (no row
dropped, already sorted, no value extreme). -/
def exW : List RawBar :=
  [mkRaw 0 10 10 10 10 5, mkRaw 1 10 10 10 10 5]

/-- A one-signal accumulator content. -/
def exSig : List String := ["BUY - RSI Oversold"]

/-- A concrete indicator library used to instantiate the parametric
frame-effect statements. -/
def exLib : IndicatorLib :=
  { sma := fun w c => rollingMean w c
  , ema := fun _ c => c
  , rsi := fun _ c => c
  , macd := id, macdSignal := id, macdDiff := id
  , bbHband := id, bbMavg := id, bbLband := id
  , atr := fun _ _ c => c
  , obv := fun c _ => c
  , stoch := fun _ _ c => c
  , stochSignal := fun _ _ c => c }

/-- A one-row cleaned frame. -/
def exDf : Df :=
  [("Date", [PFloat.val 0]), ("Open", [PFloat.val 1]), ("High", [PFloat.val 1]),
   ("Low", [PFloat.val 1]), ("Close", [PFloat.val 1]), ("Volume", [PFloat.val 1])]

/-! ### Elementary facts about `qinterp` and `quantile` -/

lemma getD_mem {s : List ℚ} {i : ℕ} (h : i < s.length) : s.getD i 0 ∈ s := by
  rw [List.getD_eq_getElem s 0 h]
  exact List.getElem_mem h

lemma floor_toNat_cast_eq {h : ℚ} (h0 : 0 ≤ h) :
    (((Int.floor h).toNat : ℕ) : ℚ) = ((Int.floor h : ℤ) : ℚ) := by
  have hf : (0 : ℤ) ≤ Int.floor h := Int.floor_nonneg.mpr h0
  exact_mod_cast congrArg (fun z : ℤ => (z : ℚ)) (Int.toNat_of_nonneg hf)

lemma floor_toNat_cast_le {h : ℚ} (h0 : 0 ≤ h) : (((Int.floor h).toNat : ℕ) : ℚ) ≤ h := by
  rw [floor_toNat_cast_eq h0]
  exact Int.floor_le h

lemma lt_floor_toNat_add_one {h : ℚ} (h0 : 0 ≤ h) :
    h < (((Int.floor h).toNat : ℕ) : ℚ) + 1 := by
  rw [floor_toNat_cast_eq h0]
  exact Int.lt_floor_add_one h

lemma qinterp_index_lt {s : List ℚ} {h : ℚ} (hne : s ≠ []) (h0 : 0 ≤ h)
    (h1 : h ≤ (s.length : ℚ) - 1) : (Int.floor h).toNat < s.length := by
  have hn : 1 ≤ s.length := List.length_pos.mpr hne
  have hle : (((Int.floor h).toNat : ℕ) : ℚ) ≤ (s.length : ℚ) - 1 :=
    le_trans (floor_toNat_cast_le h0) h1
  have : (((Int.floor h).toNat : ℕ) : ℚ) ≤ ((s.length - 1 : ℕ) : ℚ) := by
    push_cast [hn]; linarith
  have := Nat.cast_le (α := ℚ) |>.mp this
  omega

lemma le_qinterp {s : List ℚ} {h a : ℚ} (hne : s ≠ []) (h0 : 0 ≤ h)
    (h1 : h ≤ (s.length : ℚ) - 1) (hle : ∀ x ∈ s, a ≤ x) : a ≤ qinterp s h := by
  have hin : (Int.floor h).toNat < s.length := qinterp_index_lt hne h0 h1
  have hjn : min ((Int.floor h).toNat + 1) (s.length - 1) < s.length := by omega
  have hvi := hle _ (getD_mem hin)
  have hvj := hle _ (getD_mem hjn)
  have hg0 : 0 ≤ h - (((Int.floor h).toNat : ℕ) : ℚ) := by
    have := floor_toNat_cast_le h0; linarith
  have hg1 : h - (((Int.floor h).toNat : ℕ) : ℚ) < 1 := by
    have := lt_floor_toNat_add_one h0; linarith
  show a ≤ s.getD (Int.floor h).toNat 0 +
      (h - (((Int.floor h).toNat : ℕ) : ℚ)) *
        (s.getD (min ((Int.floor h).toNat + 1) (s.length - 1)) 0 -
          s.getD (Int.floor h).toNat 0)
  nlinarith [mul_nonneg hg0 (sub_nonneg.mpr hvj),
    mul_nonneg (sub_nonneg.mpr hg1.le) (sub_nonneg.mpr hvi)]

lemma lt_qinterp {s : List ℚ} {h a : ℚ} (hne : s ≠ []) (h0 : 0 ≤ h)
    (h1 : h ≤ (s.length : ℚ) - 1) (hlt : ∀ x ∈ s, a < x) : a < qinterp s h := by
  have hin : (Int.floor h).toNat < s.length := qinterp_index_lt hne h0 h1
  have hjn : min ((Int.floor h).toNat + 1) (s.length - 1) < s.length := by omega
  have hvi := hlt _ (getD_mem hin)
  have hvj := hlt _ (getD_mem hjn)
  have hg0 : 0 ≤ h - (((Int.floor h).toNat : ℕ) : ℚ) := by
    have := floor_toNat_cast_le h0; linarith
  have hg1 : h - (((Int.floor h).toNat : ℕ) : ℚ) < 1 := by
    have := lt_floor_toNat_add_one h0; linarith
  show a < s.getD (Int.floor h).toNat 0 +
      (h - (((Int.floor h).toNat : ℕ) : ℚ)) *
        (s.getD (min ((Int.floor h).toNat + 1) (s.length - 1)) 0 -
          s.getD (Int.floor h).toNat 0)
  nlinarith [mul_nonneg hg0 (sub_nonneg.mpr hvj.le),
    mul_pos (sub_pos.mpr hg1) (sub_pos.mpr hvi)]

lemma qinterp_le {s : List ℚ} {h a : ℚ} (hne : s ≠ []) (h0 : 0 ≤ h)
    (h1 : h ≤ (s.length : ℚ) - 1) (hle : ∀ x ∈ s, x ≤ a) : qinterp s h ≤ a := by
  have hin : (Int.floor h).toNat < s.length := qinterp_index_lt hne h0 h1
  have hjn : min ((Int.floor h).toNat + 1) (s.length - 1) < s.length := by omega
  have hvi := hle _ (getD_mem hin)
  have hvj := hle _ (getD_mem hjn)
  have hg0 : 0 ≤ h - (((Int.floor h).toNat : ℕ) : ℚ) := by
    have := floor_toNat_cast_le h0; linarith
  have hg1 : h - (((Int.floor h).toNat : ℕ) : ℚ) < 1 := by
    have := lt_floor_toNat_add_one h0; linarith
  show s.getD (Int.floor h).toNat 0 +
      (h - (((Int.floor h).toNat : ℕ) : ℚ)) *
        (s.getD (min ((Int.floor h).toNat + 1) (s.length - 1)) 0 -
          s.getD (Int.floor h).toNat 0) ≤ a
  nlinarith [mul_nonneg hg0 (sub_nonneg.mpr hvj),
    mul_nonneg (sub_nonneg.mpr hg1.le) (sub_nonneg.mpr hvi)]

lemma sorted_getD_mono {s : List ℚ} (hs : s.Sorted (· ≤ ·)) {i k : ℕ}
    (hik : i ≤ k) (hk : k < s.length) : s.getD i 0 ≤ s.getD k 0 := by
  have hi : i < s.length := lt_of_le_of_lt hik hk
  rw [List.getD_eq_getElem s 0 hi, List.getD_eq_getElem s 0 hk]
  rcases Nat.lt_or_ge i k with hlt | hge
  · exact hs.rel_get_of_lt (a := ⟨i, hi⟩) (b := ⟨k, hk⟩) hlt
  · have : i = k := le_antisymm hik hge
    subst this
    exact le_refl _

lemma qinterp_mono {s : List ℚ} (hs : s.Sorted (· ≤ ·)) (hne : s ≠ [])
    {h h' : ℚ} (h0 : 0 ≤ h) (hhh : h ≤ h') (h1 : h' ≤ (s.length : ℚ) - 1) :
    qinterp s h ≤ qinterp s h' := by
  have h0' : 0 ≤ h' := le_trans h0 hhh
  have hle1 : h ≤ (s.length : ℚ) - 1 := le_trans hhh h1
  have hin : (Int.floor h).toNat < s.length := qinterp_index_lt hne h0 hle1
  have hin' : (Int.floor h').toNat < s.length := qinterp_index_lt hne h0' h1
  have hjn : min ((Int.floor h).toNat + 1) (s.length - 1) < s.length := by omega
  have hjn' : min ((Int.floor h').toNat + 1) (s.length - 1) < s.length := by omega
  have hii : (Int.floor h).toNat ≤ (Int.floor h').toNat :=
    Int.toNat_le_toNat (Int.floor_le_floor hhh)
  have hg0 : 0 ≤ h - (((Int.floor h).toNat : ℕ) : ℚ) := by
    have := floor_toNat_cast_le h0; linarith
  have hg1 : h - (((Int.floor h).toNat : ℕ) : ℚ) < 1 := by
    have := lt_floor_toNat_add_one h0; linarith
  have hg0' : 0 ≤ h' - (((Int.floor h').toNat : ℕ) : ℚ) := by
    have := floor_toNat_cast_le h0'; linarith
  have hvij : s.getD (Int.floor h).toNat 0 ≤
      s.getD (min ((Int.floor h).toNat + 1) (s.length - 1)) 0 :=
    sorted_getD_mono hs (by omega) hjn
  have hvij' : s.getD (Int.floor h').toNat 0 ≤
      s.getD (min ((Int.floor h').toNat + 1) (s.length - 1)) 0 :=
    sorted_getD_mono hs (by omega) hjn'
  rcases Nat.lt_or_ge (Int.floor h).toNat (Int.floor h').toNat with hlt | hge
  · -- the two positions fall in different interpolation cells
    have step1 : qinterp s h ≤ s.getD (min ((Int.floor h).toNat + 1) (s.length - 1)) 0 := by
      show s.getD (Int.floor h).toNat 0 + _ * _ ≤ _
      nlinarith [mul_nonneg (sub_nonneg.mpr hg1.le) (sub_nonneg.mpr hvij)]
    have step2 : s.getD (min ((Int.floor h).toNat + 1) (s.length - 1)) 0 ≤
        s.getD (Int.floor h').toNat 0 :=
      sorted_getD_mono hs (by omega) hin'
    have step3 : s.getD (Int.floor h').toNat 0 ≤ qinterp s h' := by
      show _ ≤ s.getD (Int.floor h').toNat 0 + _ * _
      nlinarith [mul_nonneg hg0' (sub_nonneg.mpr hvij')]
    exact le_trans (le_trans step1 step2) step3
  · -- same interpolation cell: the fractional parts compare
    have heq : (Int.floor h).toNat = (Int.floor h').toNat := le_antisymm hii hge
    show s.getD (Int.floor h).toNat 0 + _ * _ ≤ s.getD (Int.floor h').toNat 0 + _ * _
    rw [← heq]
    have hgg : h - (((Int.floor h).toNat : ℕ) : ℚ) ≤
        h' - (((Int.floor h).toNat : ℕ) : ℚ) := by linarith
    nlinarith [mul_nonneg (sub_nonneg.mpr hgg) (sub_nonneg.mpr hvij)]

lemma quantile_length_pos_ne {l : List ℚ} (hne : l ≠ []) :
    (l.insertionSort (· ≤ ·)) ≠ [] := by
  intro hcon
  have := List.length_insertionSort (· ≤ ·) l
  rw [hcon] at this
  exact hne (List.eq_nil_of_length_eq_zero this.symm)

lemma quantile_h_mem_range {l : List ℚ} (hne : l ≠ []) {q : ℚ} (hq0 : 0 ≤ q) (hq1 : q ≤ 1) :
    0 ≤ q * ((l.length : ℚ) - 1) ∧
      q * ((l.length : ℚ) - 1) ≤ ((l.insertionSort (· ≤ ·)).length : ℚ) - 1 := by
  have hn : 1 ≤ l.length := List.length_pos.mpr hne
  have hcast : (1 : ℚ) ≤ (l.length : ℚ) := by exact_mod_cast hn
  have hrange : (0 : ℚ) ≤ (l.length : ℚ) - 1 := by linarith
  constructor
  · exact mul_nonneg hq0 hrange
  · rw [List.length_insertionSort]
    nlinarith

lemma forall_le_quantile {l : List ℚ} {a q : ℚ} (hq0 : 0 ≤ q) (hq1 : q ≤ 1)
    (hne : l ≠ []) (hle : ∀ x ∈ l, a ≤ x) : a ≤ quantile q l := by
  rw [quantile, if_neg hne]
  obtain ⟨hh0, hh1⟩ := quantile_h_mem_range hne hq0 hq1
  exact le_qinterp (quantile_length_pos_ne hne) hh0 hh1
    (fun x hx => hle x ((List.mem_insertionSort (· ≤ ·)).mp hx))

lemma forall_lt_quantile {l : List ℚ} {a q : ℚ} (hq0 : 0 ≤ q) (hq1 : q ≤ 1)
    (hne : l ≠ []) (hlt : ∀ x ∈ l, a < x) : a < quantile q l := by
  rw [quantile, if_neg hne]
  obtain ⟨hh0, hh1⟩ := quantile_h_mem_range hne hq0 hq1
  exact lt_qinterp (quantile_length_pos_ne hne) hh0 hh1
    (fun x hx => hlt x ((List.mem_insertionSort (· ≤ ·)).mp hx))

lemma quantile_le_forall {l : List ℚ} {a q : ℚ} (hq0 : 0 ≤ q) (hq1 : q ≤ 1)
    (hne : l ≠ []) (hle : ∀ x ∈ l, x ≤ a) : quantile q l ≤ a := by
  rw [quantile, if_neg hne]
  obtain ⟨hh0, hh1⟩ := quantile_h_mem_range hne hq0 hq1
  exact qinterp_le (quantile_length_pos_ne hne) hh0 hh1
    (fun x hx => hle x ((List.mem_insertionSort (· ≤ ·)).mp hx))

lemma quantile_mono {l : List ℚ} {q q' : ℚ} (hq0 : 0 ≤ q) (hqq : q ≤ q') (hq1 : q' ≤ 1) :
    quantile q l ≤ quantile q' l := by
  by_cases hne : l = []
  · subst hne; simp [quantile]
  · rw [quantile, if_neg hne, quantile, if_neg hne]
    have hn : 1 ≤ l.length := List.length_pos.mpr hne
    have hcast : (1 : ℚ) ≤ (l.length : ℚ) := by exact_mod_cast hn
    have hrange : (0 : ℚ) ≤ (l.length : ℚ) - 1 := by linarith
    have hq0' : 0 ≤ q' := le_trans hq0 hqq
    obtain ⟨hh0, hh1⟩ := quantile_h_mem_range hne hq0' hq1
    exact qinterp_mono (List.sorted_insertionSort (· ≤ ·) l)
      (quantile_length_pos_ne hne)
      (mul_nonneg hq0 hrange)
      (mul_le_mul_of_nonneg_right hqq hrange)
      hh1

/-! ### Facts about the cleaning pipeline -/

lemma capValue_cases (q1 q99 v : ℚ) :
    capValue q1 q99 v = q1 ∨ capValue q1 q99 v = q99 ∨ capValue q1 q99 v = v := by
  unfold capValue
  dsimp only
  split
  · split
    · exact Or.inr (Or.inl rfl)
    · exact Or.inl rfl
  · split
    · exact Or.inr (Or.inl rfl)
    · exact Or.inr (Or.inr rfl)

lemma capValue_pos {q1 q99 v : ℚ} (h1 : 0 < q1) (h99 : 0 < q99) (hv : 0 < v) :
    0 < capValue q1 q99 v := by
  rcases capValue_cases q1 q99 v with h | h | h <;> rw [h]
  · exact h1
  · exact h99
  · exact hv

lemma capValue_nonneg {q1 q99 v : ℚ} (h1 : 0 ≤ q1) (h99 : 0 ≤ q99) (hv : 0 ≤ v) :
    0 ≤ capValue q1 q99 v := by
  rcases capValue_cases q1 q99 v with h | h | h <;> rw [h]
  · exact h1
  · exact h99
  · exact hv

lemma mem_sortByDate {l : List Bar} {b : Bar} : b ∈ sortByDate l ↔ b ∈ l :=
  List.mem_insertionSort dateLE

lemma valid_of_mem_filterValid {l : List Bar} {b : Bar} (h : b ∈ filterValid l) :
    invalidBar b = false := by
  have := List.of_mem_filter h
  simpa using this

lemma valid_of_mem_sortFilter {l : List Bar} {b : Bar}
    (h : b ∈ sortByDate (filterValid l)) : invalidBar b = false :=
  valid_of_mem_filterValid (mem_sortByDate.mp h)

lemma validBar_fields {b : Bar} (h : invalidBar b = false) :
    b.Low ≤ b.High ∧ b.Open ≤ b.High ∧ b.Close ≤ b.High ∧
    b.Low ≤ b.Open ∧ b.Low ≤ b.Close ∧
    0 < b.Open ∧ 0 < b.High ∧ 0 < b.Low ∧ 0 < b.Close ∧ 0 ≤ b.Volume := by
  simp only [invalidBar, Bool.or_eq_false_iff, decide_eq_false_iff_not, not_lt, not_le,
    gt_iff_lt] at h
  tauto

lemma sortFilter_pairwise (l : List Bar) :
    List.Pairwise dateLE (sortByDate l) :=
  List.sorted_insertionSort dateLE l

lemma capAll_length (l : List Bar) : (capAll l).length = l.length := by
  simp [capAll]

lemma finalDataCleaning_length (l : List RawBar) :
    (finalDataCleaning l).length = (filterValid (dropMissing l)).length := by
  rw [finalDataCleaning, capAll_length, sortByDate, List.length_insertionSort]

lemma dropMissing_barToRaw (l : List Bar) : dropMissing (l.map barToRaw) = l := by
  induction l with
  | nil => rfl
  | cons b t ih =>
      simp only [List.map_cons, dropMissing, List.filterMap_cons, barToRaw]
      simpa [dropMissing] using ih

lemma filterValid_eq_self {l : List Bar} (h : ∀ b ∈ l, invalidBar b = false) :
    filterValid l = l := by
  rw [filterValid, List.filter_eq_self]
  intro b hb
  simpa using h b hb

lemma sortByDate_eq_self {l : List Bar} (h : List.Pairwise dateLE l) :
    sortByDate l = l :=
  List.Sorted.insertionSort_eq h

/-- **C1** (amended).  Every bar output by `_final_data_cleaning` has
strictly positive Open/High/Low/Close and non-negative Volume, the output
dates are non-decreasing, and all OHLC ordering constraints hold at the
sort stage, i.e. before the outlier-capping step.  (The claim's stronger
form is false: capping can break the ordering constraints and duplicate
dates are never removed — see the counterexample.) -/
theorem C1_cleaned_series_invariants (l : List RawBar) :
    (∀ b ∈ finalDataCleaning l,
        0 < b.Open ∧ 0 < b.High ∧ 0 < b.Low ∧ 0 < b.Close ∧ 0 ≤ b.Volume) ∧
    List.Pairwise dateLE (finalDataCleaning l) ∧
    (∀ b ∈ sortByDate (filterValid (dropMissing l)), invalidBar b = false) := by
  have hvalid : ∀ b ∈ sortByDate (filterValid (dropMissing l)), invalidBar b = false :=
    fun b hb => valid_of_mem_sortFilter hb
  refine ⟨?_, ?_, hvalid⟩
  · intro b hb
    rw [finalDataCleaning] at hb
    set X := sortByDate (filterValid (dropMissing l)) with hX
    simp only [capAll, List.mem_map] at hb
    obtain ⟨b0, hb0, rfl⟩ := hb
    have hXne : X ≠ [] := List.ne_nil_of_mem hb0
    have hOpos : ∀ x ∈ X.map (·.Open), 0 < x := by
      intro x hx
      obtain ⟨b1, hb1, rfl⟩ := List.mem_map.mp hx
      exact (validBar_fields (hvalid b1 hb1)).2.2.2.2.2.1
    have hHpos : ∀ x ∈ X.map (·.High), 0 < x := by
      intro x hx
      obtain ⟨b1, hb1, rfl⟩ := List.mem_map.mp hx
      exact (validBar_fields (hvalid b1 hb1)).2.2.2.2.2.2.1
    have hLpos : ∀ x ∈ X.map (·.Low), 0 < x := by
      intro x hx
      obtain ⟨b1, hb1, rfl⟩ := List.mem_map.mp hx
      exact (validBar_fields (hvalid b1 hb1)).2.2.2.2.2.2.2.1
    have hCpos : ∀ x ∈ X.map (·.Close), 0 < x := by
      intro x hx
      obtain ⟨b1, hb1, rfl⟩ := List.mem_map.mp hx
      exact (validBar_fields (hvalid b1 hb1)).2.2.2.2.2.2.2.2.1
    have hVnn : ∀ x ∈ X.map (·.Volume), 0 ≤ x := by
      intro x hx
      obtain ⟨b1, hb1, rfl⟩ := List.mem_map.mp hx
      exact (validBar_fields (hvalid b1 hb1)).2.2.2.2.2.2.2.2.2
    have hmapne : ∀ f : Bar → ℚ, X.map f ≠ [] := by
      intro f hcon
      exact hXne (List.map_eq_nil_iff.mp hcon)
    have q0 : (0 : ℚ) ≤ 1 / 100 := by norm_num
    have q1' : (1 : ℚ) / 100 ≤ 1 := by norm_num
    have q990 : (0 : ℚ) ≤ 99 / 100 := by norm_num
    have q991 : (99 : ℚ) / 100 ≤ 1 := by norm_num
    refine ⟨?_, ?_, ?_, ?_, ?_⟩
    · exact capValue_pos (forall_lt_quantile q0 q1' (hmapne _) hOpos)
        (forall_lt_quantile q990 q991 (hmapne _) hOpos)
        ((validBar_fields (hvalid b0 hb0)).2.2.2.2.2.1)
    · exact capValue_pos (forall_lt_quantile q0 q1' (hmapne _) hHpos)
        (forall_lt_quantile q990 q991 (hmapne _) hHpos)
        ((validBar_fields (hvalid b0 hb0)).2.2.2.2.2.2.1)
    · exact capValue_pos (forall_lt_quantile q0 q1' (hmapne _) hLpos)
        (forall_lt_quantile q990 q991 (hmapne _) hLpos)
        ((validBar_fields (hvalid b0 hb0)).2.2.2.2.2.2.2.1)
    · exact capValue_pos (forall_lt_quantile q0 q1' (hmapne _) hCpos)
        (forall_lt_quantile q990 q991 (hmapne _) hCpos)
        ((validBar_fields (hvalid b0 hb0)).2.2.2.2.2.2.2.2.1)
    · exact capValue_nonneg (forall_le_quantile q0 q1' (hmapne _) hVnn)
        (forall_le_quantile q990 q991 (hmapne _) hVnn)
        ((validBar_fields (hvalid b0 hb0)).2.2.2.2.2.2.2.2.2)
  · rw [finalDataCleaning]
    set X := sortByDate (filterValid (dropMissing l)) with hX
    have hs : List.Pairwise dateLE X := sortFilter_pairwise _
    simp only [capAll]
    rw [List.pairwise_map]
    exact hs

/-- Witness for C1: the amended invariants, instantiated on a concrete
two-row input. -/
theorem C1_cleaned_series_invariants_witness :
    (∀ b ∈ finalDataCleaning exW,
        0 < b.Open ∧ 0 < b.High ∧ 0 < b.Low ∧ 0 < b.Close ∧ 0 ≤ b.Volume) ∧
    List.Pairwise dateLE (finalDataCleaning exW) ∧
    (∀ b ∈ sortByDate (filterValid (dropMissing exW)), invalidBar b = false) :=
  C1_cleaned_series_invariants exW

unseal Rat.add Rat.mul Rat.inv Rat.sub in
/-- Counterexample to C1 as stated: on `ex1` the cleaner's output contains
a bar with `High < Low` (the capping step raised `Low` above `High`), and
the output dates `[0, 1, 1, 2, 3]` contain a duplicate, so they are not
strictly ascending. -/
theorem C1_counterexample :
    ((finalDataCleaning ex1).any fun b => b.High < b.Low) = true ∧
    (finalDataCleaning ex1).map (·.Date) = [0, 1, 1, 2, 3] ∧
    ¬ List.Pairwise (fun a b : ℤ => a < b) ((finalDataCleaning ex1).map (·.Date)) := by
  refine ⟨by decide, by decide, by decide⟩

/-- **C2** (confirmed).  On a non-negative column (which every column of
the pipeline is at this point), the capping step maps each value exactly
as specified — values strictly below `q1 × 0.01` become `q1`, values
strictly above `q99 × 100` become `q99`, everything else is unchanged —
and it never changes the number of rows. -/
theorem C2_outlier_capping :
    (∀ col : List ℚ, (∀ x ∈ col, 0 ≤ x) →
      (capColumn col).length = col.length ∧
      ∀ i, i < col.length →
        (capColumn col).getD i 0 =
          (if col.getD i 0 < quantile (1 / 100) col * (1 / 100) then
            quantile (1 / 100) col
           else if col.getD i 0 > quantile (99 / 100) col * 100 then
            quantile (99 / 100) col
           else col.getD i 0)) ∧
    (∀ l : List Bar, (capAll l).length = l.length) := by
  constructor
  · intro col hnn
    have hlen : (capColumn col).length = col.length := by simp [capColumn]
    refine ⟨hlen, ?_⟩
    intro i hi
    have hne : col ≠ [] := by
      intro hcon
      rw [hcon] at hi
      exact Nat.not_lt_zero i hi
    have hq1q99 : quantile (1 / 100) col ≤ quantile (99 / 100) col :=
      quantile_mono (by norm_num) (by norm_num) (by norm_num)
    have hq99nn : (0 : ℚ) ≤ quantile (99 / 100) col :=
      forall_le_quantile (by norm_num) (by norm_num) hne hnn
    have hkey : quantile (1 / 100) col ≤ quantile (99 / 100) col * 100 := by
      linarith
    have hmap : (capColumn col).getD i 0 =
        capValue (quantile (1 / 100) col) (quantile (99 / 100) col) (col.getD i 0) := by
      rw [capColumn]
      rw [List.getD_eq_getElem _ 0 (by simpa using hi),
        List.getD_eq_getElem _ 0 hi, List.getElem_map]
    rw [hmap]
    unfold capValue
    dsimp only
    by_cases hlow : col.getD i 0 < quantile (1 / 100) col * (1 / 100)
    · rw [if_pos hlow, if_pos hlow, if_neg (by linarith)]
    · rw [if_neg hlow, if_neg hlow]
  · exact capAll_length

/-- Witness for C2 at a concrete column and frame list. -/
theorem C2_outlier_capping_witness :
    (capColumn [1, 2, 3]).length = ([1, 2, 3] : List ℚ).length ∧
    (capAll []).length = ([] : List Bar).length :=
  ⟨((C2_outlier_capping.1 [1, 2, 3] (by norm_num)).1), C2_outlier_capping.2 []⟩

/-- **C5** (amended).  The cleaner is idempotent on every input on which
its capping step made no change and the surviving rows carry pairwise
distinct dates: feeding the output back through the cleaner returns it
unmodified.  Both hypotheses are needed.  Capping can break the OHLC
constraints, after which a second pass drops rows — see the counterexample.
And with duplicate dates (which the cleaner keeps), the real
`sort_values` uses an unstable quicksort that can deterministically permute
equal-date rows, so "identical series, same row order" fails there even
with no capping; the distinct-dates hypothesis is exactly where every
correct sort, the model's stable one included, returns a sorted input
unchanged. -/
theorem C5_idempotent_when_no_capping (l : List RawBar)
    (h : finalDataCleaning l = sortByDate (filterValid (dropMissing l)))
    (hstrict : List.Pairwise (fun a b : Bar => a.Date < b.Date)
      (sortByDate (filterValid (dropMissing l)))) :
    finalDataCleaning ((finalDataCleaning l).map barToRaw) = finalDataCleaning l := by
  set X := sortByDate (filterValid (dropMissing l)) with hX
  have hvalid : ∀ b ∈ X, invalidBar b = false :=
    fun b hb => valid_of_mem_sortFilter hb
  have hsorted : List.Pairwise dateLE X :=
    hstrict.imp fun hab => le_of_lt hab
  have hcap : capAll X = X := by
    unfold finalDataCleaning at h
    rw [← hX] at h
    exact h
  calc finalDataCleaning ((finalDataCleaning l).map barToRaw)
      = capAll (sortByDate (filterValid (dropMissing (X.map barToRaw)))) := by
        rw [h, finalDataCleaning]
    _ = capAll (sortByDate (filterValid X)) := by rw [dropMissing_barToRaw]
    _ = capAll (sortByDate X) := by rw [filterValid_eq_self hvalid]
    _ = capAll X := by rw [sortByDate_eq_self hsorted]
    _ = X := hcap
    _ = finalDataCleaning l := h.symm

unseal Rat.add Rat.mul Rat.inv Rat.sub in
/-- Witness for C5 on a concrete input with distinct dates on which
capping changes nothing. -/
theorem C5_idempotent_when_no_capping_witness :
    finalDataCleaning ((finalDataCleaning exW).map barToRaw) = finalDataCleaning exW :=
  C5_idempotent_when_no_capping exW (by decide) (by decide)

unseal Rat.add Rat.mul Rat.inv Rat.sub in
/-- Counterexample to C5 as stated: on `ex5` the first cleaning pass caps
the tiny `Low` of the first row above its `High`; the second pass then
drops that row, so re-running the cleaner does not return an identical
series. -/
theorem C5_counterexample :
    finalDataCleaning ((finalDataCleaning ex5).map barToRaw) ≠ finalDataCleaning ex5 ∧
    (finalDataCleaning ex5).length = 5 ∧
    (finalDataCleaning ((finalDataCleaning ex5).map barToRaw)).length = 4 := by
  refine ⟨by decide, by decide, by decide⟩

/-- **C6** (confirmed).  `process_uploaded_data` raises the empty-series
error exactly when zero rows survive the drop-missing and drop-invalid
steps (sorting and capping never change the row count), and any
successfully returned series is non-empty. -/
theorem C6_empty_series_error (l : List RawBar) :
    (processUploadedData l = Except.error "No valid data remaining after processing" ↔
      filterValid (dropMissing l) = []) ∧
    ∀ out, processUploadedData l = Except.ok out → out ≠ [] := by
  have hlen := finalDataCleaning_length l
  constructor
  · constructor
    · intro h
      by_contra hne
      have hpos : 0 < (filterValid (dropMissing l)).length :=
        List.length_pos.mpr hne
      have hfin : ¬ (finalDataCleaning l).isEmpty = true := by
        rw [List.isEmpty_iff]
        intro hcon
        rw [hcon, List.length_nil] at hlen
        omega
      rw [processUploadedData, if_neg hfin] at h
      exact Except.noConfusion h
    · intro h
      have hfin : (finalDataCleaning l).isEmpty := by
        rw [List.isEmpty_iff]
        apply List.eq_nil_of_length_eq_zero
        rw [hlen, h]
        rfl
      rw [processUploadedData, if_pos hfin]
  · intro out hout
    by_cases hfin : (finalDataCleaning l).isEmpty
    · rw [processUploadedData, if_pos hfin] at hout
      exact Except.noConfusion hout
    · rw [processUploadedData, if_neg hfin] at hout
      have : finalDataCleaning l = out := Except.ok.inj hout
      rw [← this]
      exact fun hcon => hfin (by rw [hcon]; rfl)

/-- Witness for C6: the empty input triggers the error, and a valid input
returns a non-empty series. -/
theorem C6_empty_series_error_witness :
    processUploadedData [] = Except.error "No valid data remaining after processing" :=
  (C6_empty_series_error []).1.mpr rfl

/-! ### Signal-engine theorems -/

/-- **C3** (amended).  With both of the last two points non-null, a cross
of SMA_50 from (weakly) below to strictly above SMA_200 emits exactly the
one BUY "Golden Cross" signal and no Death Cross.  The claim's null clause
only survives in the weaker form: a null at the *last* point never yields a
Golden Cross.  (A null at the second-to-last point does not suppress
signals — pandas comparisons with `NaN` are `False`, which the code reads
as "not above" — see the counterexample.) -/
theorem C3_golden_cross :
    (∀ a b c d : ℚ, a ≤ b → d < c →
      crossSignals (some a) (some b) (some c) (some d) =
        ["BUY - Golden Cross detected"]) ∧
    (∀ p50 p200 c50 c200 : Option ℚ, c50 = none ∨ c200 = none →
      "BUY - Golden Cross detected" ∉ crossSignals p50 p200 c50 c200) := by
  constructor
  · intro a b c d hab hdc
    have h1 : optGt (some a) (some b) = false := by
      simp [optGt, not_lt.mpr hab]
    have h2 : optGt (some c) (some d) = true := by
      simp [optGt, hdc]
    rw [crossSignals]
    rw [h1, h2]
    rfl
  · intro p50 p200 c50 c200 hnull
    have h2 : optGt c50 c200 = false := by
      rcases hnull with h | h
      · subst h; rfl
      · subst h; cases c50 <;> rfl
    rw [crossSignals, h2]
    rcases hb : optGt p50 p200 with _ | _ <;> simp

/-- Witness for C3 at concrete SMA values. -/
theorem C3_golden_cross_witness :
    crossSignals (some 1) (some 2) (some 3) (some 1) =
      ["BUY - Golden Cross detected"] :=
  C3_golden_cross.1 1 2 3 1 (by norm_num) (by norm_num)

/-- Counterexample to C3's null clause as stated: with SMA_50 null at the
second-to-last point a Golden Cross is still emitted, and with nulls at the
last point a Death Cross is still emitted. -/
theorem C3_counterexample :
    crossSignals none (some 1) (some 2) (some 1) =
      ["BUY - Golden Cross detected"] ∧
    crossSignals (some 2) (some 1) none none =
      ["SELL - Death Cross detected"] := by
  constructor <;> decide

/-- **C4** (confirmed).  The composite recommendation is BUY exactly on a
strict majority of BUY-prefixed signals, SELL on a strict majority of
SELL-prefixed signals, and NEUTRAL on a tie (including the empty run). -/
theorem C4_composite_recommendation (sigs : List String) :
    ((buySignals sigs).length > (sellSignals sigs).length →
      overallSignal sigs = "BUY") ∧
    ((sellSignals sigs).length > (buySignals sigs).length →
      overallSignal sigs = "SELL") ∧
    ((buySignals sigs).length = (sellSignals sigs).length →
      overallSignal sigs = "NEUTRAL") := by
  refine ⟨?_, ?_, ?_⟩ <;> intro h <;> rw [overallSignal]
  · rw [if_pos h]
  · rw [if_neg (by omega), if_pos h]
  · rw [if_neg (by omega), if_neg (by omega)]

/-- Witness for C4: the empty signal list (zero BUY, zero SELL) yields
NEUTRAL. -/
theorem C4_composite_recommendation_witness : overallSignal [] = "NEUTRAL" :=
  (C4_composite_recommendation []).2.2 rfl

/-- **C9** (amended).  The signal accumulator `self.signals` is instance
state that is never reset, so a second `analyze_stock` run on the same
frame sees every signal twice; the composite recommendation is nevertheless
the same in both runs because doubling both counts preserves their
comparison.  (The claim's "same signal list, same signal counts" is false —
see the counterexample.) -/
theorem C9_second_run_same_recommendation (e : List String) :
    signalsAfterRun (signalsAfterRun [] e) e = e ++ e ∧
    overallSignal (e ++ e) = overallSignal e := by
  constructor
  · rfl
  · have hb : buySignals (e ++ e) = buySignals e ++ buySignals e :=
      List.filter_append _ _
    have hs : sellSignals (e ++ e) = sellSignals e ++ sellSignals e :=
      List.filter_append _ _
    rw [overallSignal, overallSignal, hb, hs, List.length_append, List.length_append]
    by_cases h1 : (buySignals e).length > (sellSignals e).length
    · rw [if_pos (by omega), if_pos h1]
    · by_cases h2 : (sellSignals e).length > (buySignals e).length
      · rw [if_neg (by omega), if_pos (by omega), if_neg h1, if_pos h2]
      · rw [if_neg (by omega), if_neg (by omega), if_neg h1, if_neg h2]

/-- Witness for C9 on a concrete one-signal run. -/
theorem C9_second_run_same_recommendation_witness :
    signalsAfterRun (signalsAfterRun [] exSig) exSig = exSig ++ exSig ∧
    overallSignal (exSig ++ exSig) = overallSignal exSig :=
  C9_second_run_same_recommendation exSig

/-- Counterexample to C9 as stated: after a second run on the same series
the accumulated signal list differs from the first run's (it is doubled),
as is the BUY count. -/
theorem C9_counterexample :
    signalsAfterRun (signalsAfterRun [] exSig) exSig ≠ signalsAfterRun [] exSig ∧
    (buySignals (signalsAfterRun (signalsAfterRun [] exSig) exSig)).length = 2 ∧
    (buySignals (signalsAfterRun [] exSig)).length = 1 := by
  refine ⟨by decide, by decide, by decide⟩

/-! ### Indian-format normalizer theorem -/

lemma indianRow_date_eval :
    (processIndianRow "19-Aug-2025" "1,390.00" "1,421.00" "1,389.10" "1,420.10"
      "1,43,84,719").Date = some (2025, 8, 19) := by decide

set_option maxHeartbeats 1000000 in
unseal Rat.add Rat.mul Rat.inv Rat.sub in
lemma indianRow_open_eval :
    (processIndianRow "19-Aug-2025" "1,390.00" "1,421.00" "1,389.10" "1,420.10"
      "1,43,84,719").Open = some 1390 := by decide

set_option maxHeartbeats 1000000 in
unseal Rat.add Rat.mul Rat.inv Rat.sub in
lemma indianRow_high_eval :
    (processIndianRow "19-Aug-2025" "1,390.00" "1,421.00" "1,389.10" "1,420.10"
      "1,43,84,719").High = some 1421 := by decide

set_option maxHeartbeats 1000000 in
unseal Rat.add Rat.mul Rat.inv Rat.sub in
lemma indianRow_low_eval :
    (processIndianRow "19-Aug-2025" "1,390.00" "1,421.00" "1,389.10" "1,420.10"
      "1,43,84,719").Low = some (13891 / 10) := by decide

set_option maxHeartbeats 1000000 in
unseal Rat.add Rat.mul Rat.inv Rat.sub in
lemma indianRow_close_eval :
    (processIndianRow "19-Aug-2025" "1,390.00" "1,421.00" "1,389.10" "1,420.10"
      "1,43,84,719").Close = some (14201 / 10) := by decide

set_option maxHeartbeats 1000000 in
unseal Rat.add Rat.mul Rat.inv Rat.sub in
lemma indianRow_volume_eval :
    (processIndianRow "19-Aug-2025" "1,390.00" "1,421.00" "1,389.10" "1,420.10"
      "1,43,84,719").Volume = some 14384719 := by decide

/-- **C7** (confirmed).  The quote/comma-stripping steps remove every quote
and comma, and the documented Indian CSV row normalizes exactly as the
claim states (`1,43,84,719` → `14384719`, `19-Aug-2025` → 2025-08-19). -/
theorem C7_indian_row_normalization :
    ((processIndianRow "19-Aug-2025" "1,390.00" "1,421.00" "1,389.10" "1,420.10"
        "1,43,84,719").Date = some (2025, 8, 19) ∧
      (processIndianRow "19-Aug-2025" "1,390.00" "1,421.00" "1,389.10" "1,420.10"
        "1,43,84,719").Open = some 1390 ∧
      (processIndianRow "19-Aug-2025" "1,390.00" "1,421.00" "1,389.10" "1,420.10"
        "1,43,84,719").High = some 1421 ∧
      (processIndianRow "19-Aug-2025" "1,390.00" "1,421.00" "1,389.10" "1,420.10"
        "1,43,84,719").Low = some (13891 / 10) ∧
      (processIndianRow "19-Aug-2025" "1,390.00" "1,421.00" "1,389.10" "1,420.10"
        "1,43,84,719").Close = some (14201 / 10) ∧
      (processIndianRow "19-Aug-2025" "1,390.00" "1,421.00" "1,389.10" "1,420.10"
        "1,43,84,719").Volume = some 14384719) ∧
    (∀ s : String, ',' ∉ (removeChar ',' s).data) ∧
    (∀ s : String, '"' ∉ (removeChar '"' s).data) := by
  refine ⟨⟨indianRow_date_eval, indianRow_open_eval, indianRow_high_eval,
    indianRow_low_eval, indianRow_close_eval, indianRow_volume_eval⟩, ?_, ?_⟩ <;>
    · intro s hmem
      rw [removeChar] at hmem
      have := (List.mem_filter.mp hmem).2
      simp at this

/-- Witness for C7: the stripper leaves no comma in a concrete cell. -/
theorem C7_indian_row_normalization_witness :
    ',' ∉ (removeChar ',' "1,43,84,719").data :=
  C7_indian_row_normalization.2.1 "1,43,84,719"

/-! ### Frame-effect theorems for the indicator engines -/

lemma getCol_setCol_ne (df : Df) (m n : String) (c : Col) (h : n ≠ m) :
    getCol (setCol df m c) n = getCol df n := by
  induction df with
  | nil =>
      show getCol [(m, c)] n = none
      rw [getCol, if_neg (fun e => h e.symm)]
      rfl
  | cons p t ih =>
      rw [setCol]
      by_cases hpm : p.1 = m
      · rw [if_pos hpm, getCol, getCol,
          if_neg (fun e : m = n => h e.symm),
          if_neg (fun e : p.1 = n => h (hpm ▸ e).symm)]
      · rw [if_neg hpm, getCol, getCol]
        by_cases hpn : p.1 = n
        · rw [if_pos hpn, if_pos hpn]
        · rw [if_neg hpn, if_neg hpn, ih]

lemma getCol_applyAssignments :
    ∀ (assigns : List (String × (Df → Col))) (df : Df) (n : String),
      (∀ p ∈ assigns, p.1 ≠ n) →
      getCol (applyAssignments df assigns) n = getCol df n := by
  intro assigns
  induction assigns with
  | nil => intro df n _; rfl
  | cons a t ih =>
      intro df n h
      have h1 : a.1 ≠ n := h a (List.mem_cons_self a t)
      have h2 : ∀ p ∈ t, p.1 ≠ n := fun p hp => h p (List.mem_cons_of_mem a hp)
      show getCol (applyAssignments (setCol df a.1 (a.2 df)) t) n = getCol df n
      rw [ih _ n h2, getCol_setCol_ne _ _ _ _ (fun e => h1 e.symm)]

/-- **C8** (amended).  `_calculate_all_indicators` computes on a copy: its
argument is returned unchanged and the result carries the original base
columns unmodified.  `TechnicalAnalysis.calculate_indicators`, however,
assigns the indicator columns onto the very frame it receives (its caller
passes a copy); even there the base columns keep their values — the
indicators are only appended under fresh names. -/
theorem C8_no_input_mutation :
    (∀ (lib : IndicatorLib) (df : Df), (calculateAllIndicators lib df).1 = df) ∧
    (∀ (lib : IndicatorLib) (df : Df), ∀ c ∈ baseColNames,
      getCol ((calculateAllIndicators lib df).2) c = getCol df c) ∧
    (∀ (lib : IndicatorLib) (df : Df), ∀ c ∈ baseColNames,
      getCol ((taCalculateIndicators lib df).1) c = getCol df c) := by
  refine ⟨fun lib df => rfl, ?_, ?_⟩
  · intro lib df c hc
    simp only [calculateAllIndicators]
    apply getCol_applyAssignments
    intro p hp
    have hx : p.1 ∈ ["SMA_20", "SMA_50", "SMA_200", "EMA_20", "RSI", "MACD",
        "MACD_Signal", "MACD_Histogram", "Stoch_K", "Stoch_D", "BB_Upper",
        "BB_Middle", "BB_Lower", "ATR", "OBV", "VWAP"] := by
      simp only [comprehensiveAssignments, List.mem_cons, List.not_mem_nil,
        or_false] at hp
      rcases hp with h|h|h|h|h|h|h|h|h|h|h|h|h|h|h|h <;> (subst h; simp)
    have hdisj : ∀ x ∈ ["SMA_20", "SMA_50", "SMA_200", "EMA_20", "RSI", "MACD",
        "MACD_Signal", "MACD_Histogram", "Stoch_K", "Stoch_D", "BB_Upper",
        "BB_Middle", "BB_Lower", "ATR", "OBV", "VWAP"],
        ∀ y ∈ baseColNames, x ≠ y := by decide
    exact hdisj _ hx c hc
  · intro lib df c hc
    simp only [taCalculateIndicators]
    apply getCol_applyAssignments
    intro p hp
    have hx : p.1 ∈ ["SMA_20", "SMA_50", "EMA_12", "EMA_26", "RSI", "MACD",
        "MACD_signal", "MACD_histogram", "BB_upper", "BB_middle", "BB_lower",
        "Volume_SMA", "Stoch_K", "Stoch_D"] := by
      simp only [taAssignments, List.mem_cons, List.not_mem_nil, or_false] at hp
      rcases hp with h|h|h|h|h|h|h|h|h|h|h|h|h|h <;> (subst h; simp)
    have hdisj : ∀ x ∈ ["SMA_20", "SMA_50", "EMA_12", "EMA_26", "RSI", "MACD",
        "MACD_signal", "MACD_histogram", "BB_upper", "BB_middle", "BB_lower",
        "Volume_SMA", "Stoch_K", "Stoch_D"],
        ∀ y ∈ baseColNames, x ≠ y := by decide
    exact hdisj _ hx c hc

/-- Witness for C8 on a concrete library and one-row frame. -/
theorem C8_no_input_mutation_witness :
    (calculateAllIndicators exLib exDf).1 = exDf ∧
    getCol ((calculateAllIndicators exLib exDf).2) "Close" = getCol exDf "Close" ∧
    getCol ((taCalculateIndicators exLib exDf).1) "Close" = getCol exDf "Close" :=
  ⟨C8_no_input_mutation.1 exLib exDf,
   C8_no_input_mutation.2.1 exLib exDf "Close" (by decide),
   C8_no_input_mutation.2.2 exLib exDf "Close" (by decide)⟩

/-- Counterexample to C8's "separate result" part as stated:
`TechnicalAnalysis.calculate_indicators` leaves its argument frame changed
— after the call it carries all fourteen indicator columns. -/
theorem C8_counterexample :
    (taCalculateIndicators exLib exDf).1 ≠ exDf ∧
    ((taCalculateIndicators exLib exDf).1.map (·.1)) =
      ["Date", "Open", "High", "Low", "Close", "Volume",
       "SMA_20", "SMA_50", "EMA_12", "EMA_26", "RSI", "MACD",
       "MACD_signal", "MACD_histogram", "BB_upper", "BB_middle", "BB_lower",
       "Volume_SMA", "Stoch_K", "Stoch_D"] := by
  refine ⟨by decide, by decide⟩

/-! ### Stochastic %K at a zero range -/

lemma pfMin_eq_posInf {a b : PFloat} (h : pfMin a b = PFloat.posInf) :
    a = PFloat.posInf ∧ b = PFloat.posInf := by
  cases a <;> cases b <;> simp_all [pfMin]

lemma pfMax_eq_negInf {a b : PFloat} (h : pfMax a b = PFloat.negInf) :
    a = PFloat.negInf ∧ b = PFloat.negInf := by
  cases a <;> cases b <;> simp_all [pfMax]

lemma foldr_pfMin_posInf_no_val :
    ∀ (t : List PFloat) (q : ℚ), t.foldr pfMin PFloat.posInf = PFloat.posInf →
      PFloat.val q ∈ t → False := by
  intro t
  induction t with
  | nil => intro q _ hq; exact absurd hq (List.not_mem_nil _)
  | cons b t2 ih =>
      intro q hf hq
      rw [List.foldr_cons] at hf
      obtain ⟨hb, hrest⟩ := pfMin_eq_posInf hf
      rcases List.mem_cons.mp hq with heq | hmem
      · rw [← heq] at hb; exact PFloat.noConfusion hb
      · exact ih q hrest hmem

lemma foldr_pfMax_negInf_no_val :
    ∀ (t : List PFloat) (q : ℚ), t.foldr pfMax PFloat.negInf = PFloat.negInf →
      PFloat.val q ∈ t → False := by
  intro t
  induction t with
  | nil => intro q _ hq; exact absurd hq (List.not_mem_nil _)
  | cons b t2 ih =>
      intro q hf hq
      rw [List.foldr_cons] at hf
      obtain ⟨hb, hrest⟩ := pfMax_eq_negInf hf
      rcases List.mem_cons.mp hq with heq | hmem
      · rw [← heq] at hb; exact PFloat.noConfusion hb
      · exact ih q hrest hmem

lemma foldr_pfMin_le :
    ∀ (t : List PFloat) (m q : ℚ), t.foldr pfMin PFloat.posInf = PFloat.val m →
      PFloat.val q ∈ t → m ≤ q := by
  intro t
  induction t with
  | nil => intro m q hf _; simp at hf
  | cons b t2 ih =>
      intro m q hf hq
      rw [List.foldr_cons] at hf
      rcases hr : t2.foldr pfMin PFloat.posInf with _ | _ | _ | y <;> rw [hr] at hf
      · exfalso; cases b <;> simp [pfMin] at hf
      · rcases List.mem_cons.mp hq with heq | hmem
        · rw [← heq] at hf
          simp only [pfMin] at hf
          have hqm : q = m := by injection hf
          exact le_of_eq hqm.symm
        · exact absurd hmem (fun hmem2 => foldr_pfMin_posInf_no_val t2 q hr hmem2)
      · exfalso; cases b <;> simp [pfMin] at hf
      · cases b with
        | nan => exfalso; simp [pfMin] at hf
        | posInf =>
            simp only [pfMin] at hf
            have hym : y = m := by injection hf
            rcases List.mem_cons.mp hq with heq | hmem
            · exact absurd heq.symm (fun hc => PFloat.noConfusion hc)
            · exact ih m q (by rw [hr, hym]) hmem
        | negInf => exfalso; simp [pfMin] at hf
        | val x =>
            simp only [pfMin] at hf
            have hxm : min x y = m := by injection hf
            rcases List.mem_cons.mp hq with heq | hmem
            · have hqx : q = x := by
                have := heq
                injection this
              have := min_le_left x y
              rw [hxm] at this
              rw [hqx]
              exact this
            · have hy : y ≤ q := ih y q hr hmem
              have := min_le_right x y
              rw [hxm] at this
              exact le_trans this hy

lemma foldr_pfMax_ge :
    ∀ (t : List PFloat) (m q : ℚ), t.foldr pfMax PFloat.negInf = PFloat.val m →
      PFloat.val q ∈ t → q ≤ m := by
  intro t
  induction t with
  | nil => intro m q hf _; simp at hf
  | cons b t2 ih =>
      intro m q hf hq
      rw [List.foldr_cons] at hf
      rcases hr : t2.foldr pfMax PFloat.negInf with _ | _ | _ | y <;> rw [hr] at hf
      · exfalso; cases b <;> simp [pfMax] at hf
      · exfalso; cases b <;> simp [pfMax] at hf
      · rcases List.mem_cons.mp hq with heq | hmem
        · rw [← heq] at hf
          simp only [pfMax] at hf
          have hqm : q = m := by injection hf
          exact le_of_eq hqm
        · exact absurd hmem (fun hmem2 => foldr_pfMax_negInf_no_val t2 q hr hmem2)
      · cases b with
        | nan => exfalso; simp [pfMax] at hf
        | posInf => exfalso; simp [pfMax] at hf
        | negInf =>
            simp only [pfMax] at hf
            have hym : y = m := by injection hf
            rcases List.mem_cons.mp hq with heq | hmem
            · exact absurd heq.symm (fun hc => PFloat.noConfusion hc)
            · exact ih m q (by rw [hr, hym]) hmem
        | val x =>
            simp only [pfMax] at hf
            have hxm : max x y = m := by injection hf
            rcases List.mem_cons.mp hq with heq | hmem
            · have hqx : q = x := by
                have := heq
                injection this
              have := le_max_left x y
              rw [hxm] at this
              rw [hqx]
              exact this
            · have hy : q ≤ y := ih y q hr hmem
              have := le_max_right x y
              rw [hxm] at this
              exact le_trans hy this

lemma getD_mem_window {α : Type} (l : List α) (d : α) (i w : ℕ)
    (hi : i < l.length) (hw1 : 1 ≤ w) (hwi : w ≤ i + 1) :
    l.getD i d ∈ (l.take (i + 1)).drop (i + 1 - w) := by
  have hidx : ((l.take (i + 1)).drop (i + 1 - w))[w - 1]? = some (l.getD i d) := by
    rw [List.getElem?_drop]
    have harith : i + 1 - w + (w - 1) = i := by omega
    rw [harith, List.getElem?_take, if_pos (Nat.lt_succ_self i),
      List.getElem?_eq_getElem hi, List.getD_eq_getElem l d hi]
  exact List.getElem?_mem hidx

lemma colOfQ_getD (l : List ℚ) (i : ℕ) (hi : i < l.length) :
    (colOfQ l).getD i (PFloat.val 0) = PFloat.val (l.getD i 0) := by
  rw [colOfQ, List.getD_eq_getElem _ _ (by simpa using hi), List.getElem_map,
    List.getD_eq_getElem l 0 hi]

/-- **C10** (amended).  At any index where the 14-period rolling maximum
of High equals the 14-period rolling minimum of Low AND the row itself
satisfies `Low ≤ Close ≤ High`, the inline stochastic %K value is `NaN` —
the computation is total (no division error is raised) and no numeric
fallback such as 50 is substituted.  The row-validity condition is
essential and the unconditional claim is false: the outlier-capping step
can leave a row with `Close` above its capped `High` (see
`C1_counterexample`), and at a zero-range index of such data the numerator
is non-zero, so numpy gives `x/0 = +∞`, which is not null/missing — see
the counterexample. -/
theorem C10_stochastic_zero_range (high low close : List ℚ) (i : ℕ) (m : ℚ)
    (hhl : high.length = low.length) (hcl : close.length = low.length)
    (hi : i < low.length)
    (hmax : (rollingMax 14 (colOfQ high))[i]? = some (PFloat.val m))
    (hmin : (rollingMin 14 (colOfQ low))[i]? = some (PFloat.val m))
    (hlc : low.getD i 0 ≤ close.getD i 0) (hch : close.getD i 0 ≤ high.getD i 0) :
    (stochKCol (colOfQ high) (colOfQ low) (colOfQ close))[i]? = some PFloat.nan := by
  have hiH : i < high.length := by omega
  have hiC : i < close.length := by omega
  have hminC : (colOfQ low).length = low.length := by simp [colOfQ]
  have hmaxC : (colOfQ high).length = high.length := by simp [colOfQ]
  have hmin0 := hmin
  have hmax0 := hmax
  rw [rollingMin, List.getElem?_map,
    List.getElem?_range (by rw [hminC]; exact hi), Option.map_some'] at hmin
  rw [rollingMax, List.getElem?_map,
    List.getElem?_range (by rw [hmaxC]; exact hiH), Option.map_some'] at hmax
  have hmin' := Option.some.inj hmin
  have hmax' := Option.some.inj hmax
  by_cases hw : i + 1 < 14
  · rw [if_pos hw] at hmin'
    exact absurd hmin' (by simp)
  rw [if_neg hw] at hmin'
  rw [if_neg hw] at hmax'
  have hw14 : 14 ≤ i + 1 := by omega
  have hmemL : PFloat.val (low.getD i 0) ∈
      ((colOfQ low).take (i + 1)).drop (i + 1 - 14) := by
    have := getD_mem_window (colOfQ low) (PFloat.val 0) i 14
      (by rw [hminC]; exact hi) (by norm_num) hw14
    rwa [colOfQ_getD low i hi] at this
  have hmL : m ≤ low.getD i 0 := foldr_pfMin_le _ m _ hmin' hmemL
  have hmemH : PFloat.val (high.getD i 0) ∈
      ((colOfQ high).take (i + 1)).drop (i + 1 - 14) := by
    have := getD_mem_window (colOfQ high) (PFloat.val 0) i 14
      (by rw [hmaxC]; exact hiH) (by norm_num) hw14
    rwa [colOfQ_getD high i hiH] at this
  have hmH : high.getD i 0 ≤ m := foldr_pfMax_ge _ m _ hmax' hmemH
  have hceq : close.getD i 0 = m := le_antisymm (le_trans hch hmH) (le_trans hmL hlc)
  have hcget : (colOfQ close)[i]? = some (PFloat.val m) := by
    rw [colOfQ, List.getElem?_map, List.getElem?_eq_getElem hiC, Option.map_some',
      ← List.getD_eq_getElem close 0 hiC, hceq]
  rw [stochKCol, List.getElem?_zipWith', List.getElem?_zipWith',
    List.getElem?_zipWith', hcget, hmin0, hmax0]
  simp [PFloat.sub, PFloat.div, PFloat.mul]

set_option maxRecDepth 8000 in
/-- Witness for C10: a 14-bar window of constant price 5 has zero
stochastic range, and %K at its last index is `NaN`. -/
theorem C10_stochastic_zero_range_witness :
    (stochKCol (colOfQ (List.replicate 14 5)) (colOfQ (List.replicate 14 5))
      (colOfQ (List.replicate 14 5)))[13]? = some PFloat.nan :=
  C10_stochastic_zero_range (List.replicate 14 5) (List.replicate 14 5)
    (List.replicate 14 5) 13 5 rfl rfl (by norm_num) (by decide) (by decide)
    (by norm_num) (by norm_num)

set_option maxRecDepth 8000 in
unseal Rat.add Rat.mul Rat.inv Rat.sub in
/-- Counterexample to C10 as stated: a zero-range window (rolling max of
High = rolling min of Low = 1 at index 13) whose last row has Close = 2
above its High yields %K = +∞, not a null/missing value.  Such rows are
reachable: capping can pull High below an untouched Close (the same
mechanism as in `C1_counterexample`). -/
theorem C10_counterexample :
    (rollingMax 14 (colOfQ (List.replicate 14 1)))[13]? = some (PFloat.val 1) ∧
    (rollingMin 14 (colOfQ (List.replicate 14 1)))[13]? = some (PFloat.val 1) ∧
    (stochKCol (colOfQ (List.replicate 14 1)) (colOfQ (List.replicate 14 1))
      (colOfQ (List.replicate 13 1 ++ [2])))[13]? = some PFloat.posInf := by
  refine ⟨by decide, by decide, by decide⟩

end StockDash
